import Mathlib

/-!
Verification of cargo-deb's debhelper core (src/dh_lib.rs, src/util.rs):
path resolution (`pkgfile`), autoscript fragment accumulation
(`get_embedded_autoscript`, `autoscript_sed`, `autoscript`) and maintainer
script composition (`debhelper_script_subst`, `apply`).

Script text is modelled as `List Char`; the embedded template store, the
filesystem and the name of the running executable are parameters.  Rust's
`str::replace` is modelled by a fuel-indexed structural recursion so that
all definitions evaluate inside the kernel.
-/

/-- Script text: an owned character sequence. -/
abbrev Str := List Char

/-- Turn a string literal into `Str`. -/
def str (s : String) : Str := s.toList

/-- A filesystem path, kept abstract as a directory part plus a file name:
the engine only ever forms paths by joining a directory with a computed
file name. -/
structure FsPath where
  dir : Str
  fname : Str
  deriving DecidableEq

/-- Rust `dir.join(name)` for a computed relative file name. -/
def joinPath (dir fname : Str) : FsPath := ⟨dir, fname⟩

/-- The read-only filesystem boundary: the contents of the regular file at
a path, or `none` when the path does not exist as a regular file. -/
abbrev FileSystem := FsPath → Option Str

/-- util.rs `is_path_file`: does the path exist as a regular file? -/
def is_path_file (fs : FileSystem) (p : FsPath) : Bool := (fs p).isSome

/-- util.rs `read_file_to_string`: whole-file text read. -/
def read_file_to_string (fs : FileSystem) (p : FsPath) : Option Str := fs p

/-- The in-memory fragment table `ScriptFragments = HashMap<String, Vec<u8>>`,
modelled as a finite-support lookup function. -/
abbrev ScriptFragments := Str → Option Str

/-- `HashMap::insert`: update one binding, keep all others. -/
def sfInsert (scripts : ScriptFragments) (k v : Str) : ScriptFragments :=
  fun k' => if k' = k then some v else scripts k'

/-- The embedded autoscript store (`Autoscripts::get` from rust-embed),
an opaque name-to-text lookup. -/
abbrev TemplateStore := Str → Option Str

/-- Fuel-indexed worker for Rust `str::replace`: replace the leftmost,
non-overlapping occurrences of `pat` by `rep`, scanning left to right.
Structural in the fuel so that it reduces in the kernel; every use
supplies `fuel = s.length`. -/
def replaceAllGo (pat rep : Str) : Nat → Str → Str
  | 0, s => s
  | _ + 1, [] => []
  | fuel + 1, c :: rest =>
    if !pat.isEmpty && pat.isPrefixOf (c :: rest) then
      rep ++ replaceAllGo pat rep fuel ((c :: rest).drop pat.length)
    else
      c :: replaceAllGo pat rep fuel rest

/-- Rust `str::replace`: replace every leftmost non-overlapping occurrence
of `pat` in `s` by `rep`.  (All patterns the program uses are non-empty
literals.) -/
def replaceAll (pat rep s : Str) : Str := replaceAllGo pat rep s.length s

/-- Does `pat` occur as a contiguous substring of `s`? -/
def occurs (pat : Str) : Str → Bool
  | [] => pat.isPrefixOf []
  | c :: rest => pat.isPrefixOf (c :: rest) || occurs pat rest

/-- Fuel-indexed worker splitting `s` at the leftmost non-overlapping
occurrences of `pat`; the segments between matches, in order. -/
def splitOnGo (pat : Str) : Nat → Str → List Str
  | 0, s => [s]
  | _ + 1, [] => [[]]
  | fuel + 1, c :: rest =>
    if !pat.isEmpty && pat.isPrefixOf (c :: rest) then
      [] :: splitOnGo pat fuel ((c :: rest).drop pat.length)
    else
      match splitOnGo pat fuel rest with
      | [] => [[c]]
      | h :: t => (c :: h) :: t

/-- Split `s` at the leftmost non-overlapping occurrences of `pat`. -/
def splitOn (pat s : Str) : List Str := splitOnGo pat s.length s

/-- Join a list of segments, placing `sep` between consecutive segments. -/
def joinSep (sep : Str) : List Str → Str
  | [] => []
  | [p] => p
  | p :: q :: t => p ++ sep ++ joinSep sep (q :: t)

/-- Number of lines of a text in the sense of Rust `str::lines().count()`:
newline-terminated lines plus a final unterminated line if any. -/
def lineCount (s : Str) : Nat :=
  s.count '\n' +
    match s.getLast? with
    | some c => if c = '\n' then 0 else 1
    | none => 0

/-- dh_lib.rs `pkgfile`: find the most specific file in `dir` matching the
package, filename and optional unit name.  Candidates are pushed in the
source's order and the first existing regular file wins. -/
def pkgfile (fs : FileSystem) (dir : Str) (main_package package filename : Str)
    (unit_name : Option Str) : Option FsPath :=
  let is_main_package := main_package == package
  let paths_to_try :=
    (match unit_name with
     | some u =>
       let named_filename := u ++ str "." ++ filename
       [joinPath dir (package ++ str "." ++ named_filename)] ++
         (if is_main_package then [joinPath dir named_filename] else [])
     | none => []) ++
    ([joinPath dir (package ++ str "." ++ filename)] ++
      (if is_main_package then [joinPath dir filename] else []))
  paths_to_try.find? (fun p => is_path_file fs p)

/-- dh_lib.rs `get_embedded_autoscript`, normalization step: append a
trailing newline if the text does not already end with one. -/
def normalizeNL (s : Str) : Str :=
  if s.getLast? = some '\n' then s else s ++ ['\n']

/-- dh_lib.rs `get_embedded_autoscript`: look the snippet up in the
embedded store and normalize it; an unknown name is a lookup failure
(a panic in the source). -/
def get_embedded_autoscript (store : TemplateStore) (snippet_filename : Str) :
    Option Str :=
  (store snippet_filename).map normalizeNL

/-- The literal placeholder token `#key#`. -/
def tokenOf (key : Str) : Str := '#' :: key ++ ['#']

/-- One placeholder substitution step of `autoscript_sed`:
`snippet.replace("#key#", value)`. -/
def sedStep (acc : Str) (kv : Str × Str) : Str :=
  replaceAll (tokenOf kv.1) kv.2 acc

/-- dh_lib.rs `autoscript_sed`: render a snippet by replacing each
placeholder token `#key#` by its value, one map entry after another
(the map's iteration order is the list order here). -/
def autoscript_sed (store : TemplateStore) (snippet_filename : Str)
    (replacements : List (Str × Str)) : Option Str :=
  (get_embedded_autoscript store snippet_filename).map
    (fun snippet => replacements.foldl sedStep snippet)

/-- The intermediate fragment-table key `"<package>.<script>.debhelper"`. -/
def fragKey (package script : Str) : Str :=
  package ++ str "." ++ script ++ str ".debhelper"

/-- The banner's opening comment line `# Automatically added by <bin>`. -/
def banner_open (binName : Str) : Str :=
  str "# Automatically added by " ++ binName ++ ['\n']

/-- The banner's closing comment line. -/
def banner_close : Str := str "# End automatically added section\n"

/-- A rendered snippet wrapped in the banner comment lines, exactly the
block `autoscript` builds before merging it into the table. -/
def banner_wrap (binName rendered : Str) : Str :=
  banner_open binName ++ rendered ++ banner_close

/-- Failure modes of the engine.  The source's two panics (unknown
autoscript name, unsupported sed mode) are modelled as errors, alongside
the `CargoDebError` values it returns. -/
inductive CargoDebError where
  | DebHelperReplaceFailed (path : FsPath)
  | UnknownAutoscript (snippet_filename : Str)
  | UnimplementedSedMode
  | IoRead (path : FsPath)
  deriving DecidableEq

/-- dh_lib.rs `autoscript`: render the named snippet, wrap it in the
banner, and merge it into the fragment table under
`"<package>.<script>.debhelper"` - prepending for `postrm`/`prerm` when an
entry already exists, appending otherwise.  Empty replacement maps (sed
mode) and unknown snippet names fail. -/
def autoscript (store : TemplateStore) (binName : Str)
    (scripts : ScriptFragments) (package script snippet_filename : Str)
    (replacements : List (Str × Str)) : Except CargoDebError ScriptFragments :=
  let outfile := fragKey package script
  if (scripts outfile).isSome && (script == str "postrm" || script == str "prerm") then
    if !replacements.isEmpty then
      match autoscript_sed store snippet_filename replacements with
      | some rendered =>
        let existing_text := (scripts outfile).getD []
        .ok (sfInsert scripts outfile (banner_wrap binName rendered ++ existing_text))
      | none => .error (.UnknownAutoscript snippet_filename)
    else
      .error .UnimplementedSedMode
  else if !replacements.isEmpty then
    match autoscript_sed store snippet_filename replacements with
    | some rendered =>
      let existing_text := (scripts outfile).getD []
      .ok (sfInsert scripts outfile (existing_text ++ banner_wrap binName rendered))
    | none => .error (.UnknownAutoscript snippet_filename)
  else
    .error .UnimplementedSedMode

/-- The marker token recognized in user maintainer scripts. -/
def marker : Str := str "#DEBHELPER#"

/-- dh_lib.rs `debhelper_script_subst`: compose one maintainer script.
Resolve a user script via `pkgfile`; if found, splice the accumulated
fragment text (empty if absent) over the `#DEBHELPER#` marker, failing
when the replacement changes nothing; otherwise synthesize a script from
the fragment entry when one exists.  Returns the outcome together with
the resulting table. -/
def debhelper_script_subst (fs : FileSystem) (user_scripts_dir : Str)
    (scripts : ScriptFragments) (package script : Str) (unit_name : Option Str) :
    Except CargoDebError Unit × ScriptFragments :=
  let user_file := pkgfile fs user_scripts_dir package package script unit_name
  let generated_file_name := fragKey package script
  match user_file with
  | some user_file_path =>
    let generated_text := (scripts generated_file_name).getD []
    match read_file_to_string fs user_file_path with
    | none => (.error (.IoRead user_file_path), scripts)
    | some user_text =>
      let new_text := replaceAll marker generated_text user_text
      if new_text = user_text then
        (.error (.DebHelperReplaceFailed user_file_path), scripts)
      else
        (.ok (), sfInsert scripts script new_text)
  | none =>
    match scripts generated_file_name with
    | some generated_bytes =>
      (.ok (), sfInsert scripts script
        (str "#!/bin/sh\n" ++ str "set -e\n" ++ generated_bytes))
    | none => (.ok (), scripts)

/-- Worker for `apply`: compose the listed script kinds in order,
stopping at the first error (later kinds are not attempted, the table
keeps the successfully composed prefix). -/
def applyGo (fs : FileSystem) (dir : Str) (package : Str) (unit_name : Option Str) :
    List Str → ScriptFragments → Except CargoDebError Unit × ScriptFragments
  | [], scripts => (.ok (), scripts)
  | script :: rest, scripts =>
    match debhelper_script_subst fs dir scripts package script unit_name with
    | (.ok _, scripts') => applyGo fs dir package unit_name rest scripts'
    | (.error e, scripts') => (.error e, scripts')

/-- dh_lib.rs `apply`: compose all four maintainer script kinds. -/
def apply (fs : FileSystem) (dir : Str) (scripts : ScriptFragments)
    (package : Str) (unit_name : Option Str) :
    Except CargoDebError Unit × ScriptFragments :=
  applyGo fs dir package unit_name
    [str "postinst", str "preinst", str "prerm", str "postrm"] scripts

/-- Modelled from the claim's wording for C2: the ranked candidate list -
unit+package, unit-only (main package only), package-only, generic (main
package only). -/
def specCandidates (dir main_package package filename : Str)
    (unit_name : Option Str) : List FsPath :=
  (match unit_name with
   | some un =>
     [joinPath dir (package ++ str "." ++ un ++ str "." ++ filename)] ++
       (if package == main_package then [joinPath dir (un ++ str "." ++ filename)] else [])
   | none => []) ++
  [joinPath dir (package ++ str "." ++ filename)] ++
  (if package == main_package then [joinPath dir filename] else [])

/-! Basic facts about the string helpers. -/

theorem ne_nil_of_guard {pat : Str} (h : (!pat.isEmpty) = true) : pat ≠ [] := by
  cases pat <;> simp_all

theorem and_true_parts {a b : Bool} (h : (a && b) = true) : a = true ∧ b = true := by
  rw [Bool.and_eq_true] at h
  exact h

theorem isPrefixOf_append_drop {pat s : Str} (h : pat.isPrefixOf s = true) :
    pat ++ s.drop pat.length = s := by
  induction pat generalizing s with
  | nil => simp
  | cons a as ih =>
    cases s with
    | nil => simp at h
    | cons b bs =>
      rw [List.isPrefixOf_cons₂] at h
      rcases and_true_parts h with ⟨hab, hrest⟩
      obtain rfl : a = b := beq_iff_eq.mp hab
      simp only [List.cons_append, List.length_cons, List.drop_succ_cons]
      exact congrArg (List.cons a) (ih hrest)

theorem isPrefixOf_append_right {pat u : Str} (v : Str) (h : pat.isPrefixOf u = true) :
    pat.isPrefixOf (u ++ v) = true := by
  induction pat generalizing u with
  | nil => simp
  | cons a as ih =>
    cases u with
    | nil => simp at h
    | cons b bs =>
      rw [List.isPrefixOf_cons₂] at h
      rcases and_true_parts h with ⟨hab, hrest⟩
      simp only [List.cons_append]
      rw [List.isPrefixOf_cons₂]
      rw [Bool.and_eq_true]
      exact ⟨hab, ih hrest⟩

theorem replaceAllGo_nil (pat rep : Str) (fuel : Nat) :
    replaceAllGo pat rep fuel [] = [] := by
  cases fuel <;> rfl

theorem occurs_nil {pat : Str} (hpat : pat ≠ []) : occurs pat [] = false := by
  cases pat with
  | nil => exact absurd rfl hpat
  | cons a as => rfl

theorem splitOnGo_ne_nil (pat : Str) (fuel : Nat) (s : Str) :
    splitOnGo pat fuel s ≠ [] := by
  induction fuel generalizing s with
  | zero => simp [splitOnGo]
  | succ fuel ih =>
    cases s with
    | nil => simp [splitOnGo]
    | cons c rest =>
      simp only [splitOnGo]
      split
      · simp
      · cases splitOnGo pat fuel rest with
        | nil => simp
        | cons h t => simp

theorem splitOnGo_cons_ex (pat : Str) (fuel : Nat) (s : Str) :
    ∃ h t, splitOnGo pat fuel s = h :: t := by
  cases hL : splitOnGo pat fuel s with
  | nil => exact absurd hL (splitOnGo_ne_nil pat fuel s)
  | cons h t => exact ⟨h, t, rfl⟩

theorem joinSep_cons_head (sep : Str) (c : Char) (h : Str) (t : List Str) :
    joinSep sep ((c :: h) :: t) = c :: joinSep sep (h :: t) := by
  cases t <;> simp [joinSep]

theorem joinSep_head_append (sep : Str) (h : Str) (t : List Str) :
    ∃ z, joinSep sep (h :: t) = h ++ z := by
  cases t with
  | nil => exact ⟨[], by simp [joinSep]⟩
  | cons q t => exact ⟨sep ++ joinSep sep (q :: t), by simp [joinSep]⟩

theorem joinSep_splitOnGo (pat : Str) (fuel : Nat) (s : Str) (hf : s.length ≤ fuel) :
    joinSep pat (splitOnGo pat fuel s) = s := by
  induction fuel generalizing s with
  | zero =>
    obtain rfl : s = [] := List.length_eq_zero.mp (Nat.le_zero.mp hf)
    simp [splitOnGo, joinSep]
  | succ fuel ih =>
    cases s with
    | nil => simp [splitOnGo, joinSep]
    | cons c rest =>
      simp only [splitOnGo]
      by_cases hb : (!pat.isEmpty && pat.isPrefixOf (c :: rest)) = true
      · rw [if_pos hb]
        have hpat := ne_nil_of_guard (and_true_parts hb).1
        have hpre := (and_true_parts hb).2
        have hlen : ((c :: rest).drop pat.length).length ≤ fuel := by
          have hpos : 0 < pat.length := List.length_pos.mpr hpat
          have hf' : rest.length + 1 ≤ fuel + 1 := by simpa using hf
          simp only [List.length_drop, List.length_cons]
          omega
        obtain ⟨h, t, hL⟩ := splitOnGo_cons_ex pat fuel ((c :: rest).drop pat.length)
        rw [hL]
        have hih := ih ((c :: rest).drop pat.length) hlen
        rw [hL] at hih
        show [] ++ pat ++ joinSep pat (h :: t) = c :: rest
        rw [List.nil_append, hih]
        exact isPrefixOf_append_drop hpre
      · rw [if_neg hb]
        obtain ⟨h, t, hrec⟩ := splitOnGo_cons_ex pat fuel rest
        rw [hrec, joinSep_cons_head]
        have hih := ih rest (by
          have hf' : rest.length + 1 ≤ fuel + 1 := by simpa using hf
          omega)
        rw [hrec] at hih
        rw [hih]

theorem replaceAllGo_eq_joinSep (pat rep : Str) (fuel : Nat) (s : Str)
    (hf : s.length ≤ fuel) :
    replaceAllGo pat rep fuel s = joinSep rep (splitOnGo pat fuel s) := by
  induction fuel generalizing s with
  | zero =>
    obtain rfl : s = [] := List.length_eq_zero.mp (Nat.le_zero.mp hf)
    simp [replaceAllGo, splitOnGo, joinSep]
  | succ fuel ih =>
    cases s with
    | nil => simp [replaceAllGo, splitOnGo, joinSep]
    | cons c rest =>
      simp only [replaceAllGo, splitOnGo]
      by_cases hb : (!pat.isEmpty && pat.isPrefixOf (c :: rest)) = true
      · rw [if_pos hb, if_pos hb]
        have hpat := ne_nil_of_guard (and_true_parts hb).1
        have hlen : ((c :: rest).drop pat.length).length ≤ fuel := by
          have hpos : 0 < pat.length := List.length_pos.mpr hpat
          have hf' : rest.length + 1 ≤ fuel + 1 := by simpa using hf
          simp only [List.length_drop, List.length_cons]
          omega
        obtain ⟨h, t, hL⟩ := splitOnGo_cons_ex pat fuel ((c :: rest).drop pat.length)
        rw [hL]
        have hih := ih ((c :: rest).drop pat.length) hlen
        rw [hL] at hih
        show rep ++ replaceAllGo pat rep fuel ((c :: rest).drop pat.length) =
          [] ++ rep ++ joinSep rep (h :: t)
        rw [List.nil_append, hih]
      · rw [if_neg hb, if_neg hb]
        obtain ⟨h, t, hrec⟩ := splitOnGo_cons_ex pat fuel rest
        rw [hrec, joinSep_cons_head]
        have hih := ih rest (by
          have hf' : rest.length + 1 ≤ fuel + 1 := by simpa using hf
          omega)
        rw [hrec] at hih
        rw [hih]

theorem splitOnGo_no_occurs (pat : Str) (hpat : pat ≠ []) (fuel : Nat) (s : Str)
    (hf : s.length ≤ fuel) :
    ∀ p ∈ splitOnGo pat fuel s, occurs pat p = false := by
  induction fuel generalizing s with
  | zero =>
    obtain rfl : s = [] := List.length_eq_zero.mp (Nat.le_zero.mp hf)
    intro p hp
    simp only [splitOnGo, List.mem_singleton] at hp
    subst hp
    exact occurs_nil hpat
  | succ fuel ih =>
    cases s with
    | nil =>
      intro p hp
      simp only [splitOnGo, List.mem_singleton] at hp
      subst hp
      exact occurs_nil hpat
    | cons c rest =>
      simp only [splitOnGo]
      by_cases hb : (!pat.isEmpty && pat.isPrefixOf (c :: rest)) = true
      · rw [if_pos hb]
        have hlen : ((c :: rest).drop pat.length).length ≤ fuel := by
          have hpos : 0 < pat.length := List.length_pos.mpr hpat
          have hf' : rest.length + 1 ≤ fuel + 1 := by simpa using hf
          simp only [List.length_drop, List.length_cons]
          omega
        intro p hp
        rcases List.mem_cons.mp hp with rfl | hp'
        · exact occurs_nil hpat
        · exact ih ((c :: rest).drop pat.length) hlen p hp'
      · rw [if_neg hb]
        have hnp : pat.isPrefixOf (c :: rest) = false := by
          cases hv : pat.isPrefixOf (c :: rest) with
          | false => rfl
          | true =>
            exfalso
            apply hb
            rw [Bool.and_eq_true]
            refine ⟨?_, hv⟩
            cases pat with
            | nil => exact absurd rfl hpat
            | cons a as => rfl
        obtain ⟨h, t, hrec⟩ := splitOnGo_cons_ex pat fuel rest
        rw [hrec]
        have hfr : rest.length ≤ fuel := by
          have hf' : rest.length + 1 ≤ fuel + 1 := by simpa using hf
          omega
        have ihr := ih rest hfr
        rw [hrec] at ihr
        intro p hp
        rcases List.mem_cons.mp hp with rfl | hp'
        · -- p = c :: h
          show (pat.isPrefixOf (c :: h) || occurs pat h) = false
          have h1 : occurs pat h = false := ihr h (List.mem_cons_self h t)
          have h2 : pat.isPrefixOf (c :: h) = false := by
            cases hv : pat.isPrefixOf (c :: h) with
            | false => rfl
            | true =>
              exfalso
              -- h is a prefix of rest (rest = h ++ z), so pat would prefix c :: rest
              have hjoin := joinSep_splitOnGo pat fuel rest hfr
              rw [hrec] at hjoin
              obtain ⟨z, hz⟩ := joinSep_head_append pat h t
              have hrest : rest = h ++ z := by rw [← hjoin, hz]
              have : pat.isPrefixOf ((c :: h) ++ z) = true := isPrefixOf_append_right z hv
              rw [List.cons_append, ← hrest] at this
              rw [this] at hnp
              exact Bool.true_eq_false.mp hnp
          rw [h1, h2]
          rfl
        · exact ihr p (List.mem_cons_of_mem h hp')

theorem occurs_iff_splitOnGo (pat : Str) (hpat : pat ≠ []) (fuel : Nat) (s : Str)
    (hf : s.length ≤ fuel) :
    occurs pat s = true ↔ 2 ≤ (splitOnGo pat fuel s).length := by
  induction fuel generalizing s with
  | zero =>
    obtain rfl : s = [] := List.length_eq_zero.mp (Nat.le_zero.mp hf)
    simp [splitOnGo, occurs_nil hpat]
  | succ fuel ih =>
    cases s with
    | nil => simp [splitOnGo, occurs_nil hpat]
    | cons c rest =>
      simp only [splitOnGo]
      by_cases hb : (!pat.isEmpty && pat.isPrefixOf (c :: rest)) = true
      · rw [if_pos hb]
        have hpre := (and_true_parts hb).2
        constructor
        · intro _
          obtain ⟨h, t, hL⟩ := splitOnGo_cons_ex pat fuel ((c :: rest).drop pat.length)
          rw [hL]
          simp
        · intro _
          show (pat.isPrefixOf (c :: rest) || occurs pat rest) = true
          rw [hpre]
          rfl
      · rw [if_neg hb]
        have hnp : pat.isPrefixOf (c :: rest) = false := by
          cases hv : pat.isPrefixOf (c :: rest) with
          | false => rfl
          | true =>
            exfalso
            apply hb
            rw [Bool.and_eq_true]
            refine ⟨?_, hv⟩
            cases pat with
            | nil => exact absurd rfl hpat
            | cons a as => rfl
        have hfr : rest.length ≤ fuel := by
          have hf' : rest.length + 1 ≤ fuel + 1 := by simpa using hf
          omega
        obtain ⟨h, t, hrec⟩ := splitOnGo_cons_ex pat fuel rest
        rw [hrec]
        have ihr := ih rest hfr
        rw [hrec] at ihr
        have hocc : occurs pat (c :: rest) = occurs pat rest := by
          show (pat.isPrefixOf (c :: rest) || occurs pat rest) = occurs pat rest
          rw [hnp]
          exact Bool.false_or _
        rw [hocc, ihr]
        simp

theorem joinSep_length (sep : Str) (parts : List Str) :
    (joinSep sep parts).length =
      (parts.map List.length).sum + (parts.length - 1) * sep.length := by
  induction parts with
  | nil => simp [joinSep]
  | cons p tail ih =>
    cases tail with
    | nil => simp [joinSep]
    | cons q t =>
      show (p ++ sep ++ joinSep sep (q :: t)).length = _
      simp only [List.length_append, ih, List.map_cons, List.sum_cons, List.length_cons,
        Nat.add_sub_cancel]
      ring

theorem joinSep_sep_inj {a b : Str} {parts : List Str} (h2 : 2 ≤ parts.length)
    (heq : joinSep a parts = joinSep b parts) : a = b := by
  match parts, h2 with
  | p :: q :: t, _ =>
    have hlen : a.length = b.length := by
      have la := joinSep_length a (p :: q :: t)
      have lb := joinSep_length b (p :: q :: t)
      rw [heq, lb] at la
      simp only [List.length_cons, Nat.add_sub_cancel] at la
      have h' : (t.length + 1) * b.length = (t.length + 1) * a.length := by omega
      exact (Nat.eq_of_mul_eq_mul_left (Nat.succ_pos _) h').symm
    have heq' : (p ++ a) ++ joinSep a (q :: t) = (p ++ b) ++ joinSep b (q :: t) := by
      simpa [joinSep, List.append_assoc] using heq
    have hl : (p ++ a).length = (p ++ b).length := by
      simp [List.length_append, hlen]
    have := (List.append_inj heq' hl).1
    exact List.append_cancel_left this

/-! The triad specialized to `replaceAll` and `splitOn`, and the
characterization of identity replacements. -/

theorem joinSep_splitOn (pat s : Str) : joinSep pat (splitOn pat s) = s :=
  joinSep_splitOnGo pat s.length s (Nat.le_refl _)

theorem replaceAll_eq_joinSep (pat rep s : Str) :
    replaceAll pat rep s = joinSep rep (splitOn pat s) :=
  replaceAllGo_eq_joinSep pat rep s.length s (Nat.le_refl _)

theorem splitOn_no_occurs (pat : Str) (hpat : pat ≠ []) (s : Str) :
    ∀ p ∈ splitOn pat s, occurs pat p = false :=
  splitOnGo_no_occurs pat hpat s.length s (Nat.le_refl _)

theorem occurs_iff_splitOn (pat : Str) (hpat : pat ≠ []) (s : Str) :
    occurs pat s = true ↔ 2 ≤ (splitOn pat s).length :=
  occurs_iff_splitOnGo pat hpat s.length s (Nat.le_refl _)

theorem splitOn_singleton_of_not_occurs (pat : Str) (hpat : pat ≠ []) (s : Str)
    (hocc : occurs pat s = false) : splitOn pat s = [s] := by
  obtain ⟨h, t, hL⟩ := splitOnGo_cons_ex pat s.length s
  have hlt : (splitOn pat s).length < 2 := by
    by_contra hge
    have := (occurs_iff_splitOn pat hpat s).mpr (Nat.le_of_not_lt hge)
    rw [this] at hocc
    exact Bool.true_eq_false.mp hocc
  have ht : t = [] := by
    have : (splitOn pat s).length = t.length + 1 := by
      show (splitOnGo pat s.length s).length = t.length + 1
      rw [hL]
      simp
    rw [this] at hlt
    exact List.length_eq_zero.mp (by omega)
  subst ht
  have hj := joinSep_splitOn pat s
  show splitOnGo pat s.length s = [s]
  rw [hL]
  have : joinSep pat (splitOnGo pat s.length s) = s := hj
  rw [hL] at this
  simp only [joinSep] at this
  rw [this]

theorem replaceAll_of_not_occurs (pat rep s : Str) (hpat : pat ≠ [])
    (hocc : occurs pat s = false) : replaceAll pat rep s = s := by
  rw [replaceAll_eq_joinSep, splitOn_singleton_of_not_occurs pat hpat s hocc]
  simp [joinSep]

theorem replaceAll_self (pat s : Str) : replaceAll pat pat s = s := by
  rw [replaceAll_eq_joinSep]
  exact joinSep_splitOn pat s

theorem replaceAll_eq_self_iff (pat rep s : Str) (hpat : pat ≠ []) :
    replaceAll pat rep s = s ↔ (occurs pat s = false ∨ rep = pat) := by
  constructor
  · intro h
    by_cases hocc : occurs pat s = true
    · right
      have h2 : 2 ≤ (splitOn pat s).length := (occurs_iff_splitOn pat hpat s).mp hocc
      apply joinSep_sep_inj h2
      rw [← replaceAll_eq_joinSep, h]
      exact (joinSep_splitOn pat s).symm
    · left
      cases hv : occurs pat s with
      | false => rfl
      | true => exact absurd hv hocc
  · intro h
    rcases h with hocc | h2
    · exact replaceAll_of_not_occurs pat rep s hpat hocc
    · rw [h2]
      exact replaceAll_self pat s

/-! Preservation of a trailing newline by replacement and rendering. -/

theorem replaceAllGo_getLast (pat rep : Str) (a : Char) (hpat : pat.getLast? ≠ some a)
    (fuel : Nat) : ∀ (s : Str), s.length ≤ fuel → s.getLast? = some a →
    (replaceAllGo pat rep fuel s).getLast? = some a := by
  induction fuel with
  | zero =>
    intro s hf hs
    obtain rfl : s = [] := List.length_eq_zero.mp (Nat.le_zero.mp hf)
    simp at hs
  | succ fuel ih =>
    intro s hf hs
    cases s with
    | nil => simp at hs
    | cons c rest =>
      simp only [replaceAllGo]
      by_cases hb : (!pat.isEmpty && pat.isPrefixOf (c :: rest)) = true
      · rw [if_pos hb]
        have hpatne := ne_nil_of_guard (and_true_parts hb).1
        have hpre := (and_true_parts hb).2
        have hdecomp := isPrefixOf_append_drop hpre
        by_cases hdn : (c :: rest).drop pat.length = []
        · exfalso
          rw [hdn, List.append_nil] at hdecomp
          rw [← hdecomp] at hs
          exact hpat hs
        · have hdl : ((c :: rest).drop pat.length).getLast? = some a := by
            rw [← hdecomp, List.getLast?_append_of_ne_nil _ hdn] at hs
            exact hs
          have hlen : ((c :: rest).drop pat.length).length ≤ fuel := by
            have hpos : 0 < pat.length := List.length_pos.mpr hpatne
            have hf' : rest.length + 1 ≤ fuel + 1 := by simpa using hf
            simp only [List.length_drop, List.length_cons]
            omega
          have hr := ih ((c :: rest).drop pat.length) hlen hdl
          have hrne : replaceAllGo pat rep fuel ((c :: rest).drop pat.length) ≠ [] := by
            intro hnil
            rw [hnil] at hr
            simp at hr
          rw [List.getLast?_append_of_ne_nil _ hrne]
          exact hr
      · rw [if_neg hb]
        cases rest with
        | nil =>
          obtain rfl : c = a := by simpa using hs
          rw [replaceAllGo_nil]
          rfl
        | cons c2 rest2 =>
          have hs' : (c2 :: rest2).getLast? = some a := by
            rw [List.getLast?_cons_cons] at hs
            exact hs
          have hr := ih (c2 :: rest2) (by
            have hf' : rest2.length + 1 + 1 ≤ fuel + 1 := by simpa using hf
            simp only [List.length_cons]
            omega) hs'
          cases hG : replaceAllGo pat rep fuel (c2 :: rest2) with
          | nil => simp_all
          | cons g gs =>
            rw [List.getLast?_cons_cons]
            simp_all

theorem replaceAll_getLast (pat rep s : Str) (a : Char) (hpat : pat.getLast? ≠ some a)
    (hs : s.getLast? = some a) : (replaceAll pat rep s).getLast? = some a :=
  replaceAllGo_getLast pat rep a hpat s.length s (Nat.le_refl _) hs

theorem tokenOf_getLast (k : Str) : (tokenOf k).getLast? = some '#' := by
  show (('#' :: k) ++ ['#']).getLast? = some '#'
  rw [List.getLast?_append_of_ne_nil _ (by simp : (['#'] : Str) ≠ [])]
  rfl

theorem tokenOf_ne_nil (k : Str) : tokenOf k ≠ [] := by
  simp [tokenOf]

theorem foldl_sedStep_getLast (repl : List (Str × Str)) (acc : Str)
    (h : acc.getLast? = some '\n') :
    (repl.foldl sedStep acc).getLast? = some '\n' := by
  induction repl generalizing acc with
  | nil => exact h
  | cons kv rest ih =>
    simp only [List.foldl_cons]
    apply ih
    apply replaceAll_getLast
    · rw [tokenOf_getLast]
      simp
    · exact h

theorem normalizeNL_getLast (s : Str) : (normalizeNL s).getLast? = some '\n' := by
  unfold normalizeNL
  split
  case isTrue h => exact h
  case isFalse h =>
    rw [List.getLast?_append_of_ne_nil _ (by simp : (['\n'] : Str) ≠ [])]
    rfl

/-! Line counting. -/

theorem lineCount_eq_count (s : Str) (h : s.getLast? = some '\n') :
    lineCount s = s.count '\n' := by
  unfold lineCount
  rw [h]
  simp

theorem lineCount_banner_wrap (binName rendered : Str) (hbin : '\n' ∉ binName)
    (hr : rendered.getLast? = some '\n') :
    lineCount (banner_wrap binName rendered) = lineCount rendered + 2 := by
  have hclose : (banner_close).getLast? = some '\n' := by decide
  have hbw : (banner_wrap binName rendered).getLast? = some '\n' := by
    show ((banner_open binName ++ rendered) ++ banner_close).getLast? = some '\n'
    rw [List.getLast?_append_of_ne_nil]
    · exact hclose
    · intro hnil
      rw [hnil] at hclose
      simp at hclose
  rw [lineCount_eq_count _ hbw, lineCount_eq_count _ hr]
  show ((banner_open binName ++ rendered) ++ banner_close).count '\n' = _
  rw [List.count_append, List.count_append]
  have hopen : (banner_open binName).count '\n' = 1 := by
    show ((str "# Automatically added by " ++ binName) ++ ['\n']).count '\n' = 1
    rw [List.count_append, List.count_append]
    have h1 : (str "# Automatically added by ").count '\n' = 0 := by decide
    have h2 : binName.count '\n' = 0 := List.count_eq_zero.mpr hbin
    have h3 : (['\n'] : Str).count '\n' = 1 := by decide
    omega
  have hcl : (banner_close).count '\n' = 1 := by decide
  omega

/-! Program-level computation lemmas. -/

theorem sfInsert_self (scripts : ScriptFragments) (k v : Str) :
    sfInsert scripts k v k = some v := by
  simp [sfInsert]

theorem sfInsert_other (scripts : ScriptFragments) (k v k' : Str) (h : k' ≠ k) :
    sfInsert scripts k v k' = scripts k' := by
  simp [sfInsert, h]

theorem not_isEmpty_of_ne_nil {repl : List (Str × Str)} (h : repl ≠ []) :
    (!repl.isEmpty) = true := by
  cases repl with
  | nil => exact absurd rfl h
  | cons a l => rfl

theorem autoscript_sed_none_iff (store : TemplateStore) (snip : Str)
    (repl : List (Str × Str)) :
    autoscript_sed store snip repl = none ↔ store snip = none := by
  simp [autoscript_sed, get_embedded_autoscript, Option.map_eq_none']

theorem autoscript_sed_of_store (store : TemplateStore) (snip tmpl : Str)
    (repl : List (Str × Str)) (hstore : store snip = some tmpl) :
    autoscript_sed store snip repl = some (repl.foldl sedStep (normalizeNL tmpl)) := by
  simp [autoscript_sed, get_embedded_autoscript, hstore]

theorem autoscript_prepend (store : TemplateStore) (binName : Str)
    (scripts : ScriptFragments) (package script snip : Str)
    (repl : List (Str × Str)) (rendered : Str)
    (hrepl : repl ≠ [])
    (hsed : autoscript_sed store snip repl = some rendered)
    (hsome : (scripts (fragKey package script)).isSome = true)
    (hkind : script = str "postrm" ∨ script = str "prerm") :
    autoscript store binName scripts package script snip repl =
      .ok (sfInsert scripts (fragKey package script)
        (banner_wrap binName rendered ++ (scripts (fragKey package script)).getD [])) := by
  have hcond : ((scripts (fragKey package script)).isSome &&
      (script == str "postrm" || script == str "prerm")) = true := by
    rw [Bool.and_eq_true, Bool.or_eq_true, beq_iff_eq, beq_iff_eq]
    exact ⟨hsome, hkind⟩
  simp only [autoscript]
  rw [if_pos hcond, if_pos (not_isEmpty_of_ne_nil hrepl), hsed]

theorem autoscript_append (store : TemplateStore) (binName : Str)
    (scripts : ScriptFragments) (package script snip : Str)
    (repl : List (Str × Str)) (rendered : Str)
    (hrepl : repl ≠ [])
    (hsed : autoscript_sed store snip repl = some rendered)
    (hcond : ¬((scripts (fragKey package script)).isSome = true ∧
      (script = str "postrm" ∨ script = str "prerm"))) :
    autoscript store binName scripts package script snip repl =
      .ok (sfInsert scripts (fragKey package script)
        ((scripts (fragKey package script)).getD [] ++ banner_wrap binName rendered)) := by
  have hbf : ¬(((scripts (fragKey package script)).isSome &&
      (script == str "postrm" || script == str "prerm")) = true) := by
    rw [Bool.and_eq_true, Bool.or_eq_true, beq_iff_eq, beq_iff_eq]
    exact hcond
  simp only [autoscript]
  rw [if_neg hbf, if_pos (not_isEmpty_of_ne_nil hrepl), hsed]

theorem autoscript_sed_mode (store : TemplateStore) (binName : Str)
    (scripts : ScriptFragments) (package script snip : Str) :
    autoscript store binName scripts package script snip [] =
      .error .UnimplementedSedMode := by
  simp only [autoscript]
  by_cases hc : ((scripts (fragKey package script)).isSome &&
      (script == str "postrm" || script == str "prerm")) = true
  · rw [if_pos hc]
    rfl
  · rw [if_neg hc]
    rfl

theorem autoscript_unknown (store : TemplateStore) (binName : Str)
    (scripts : ScriptFragments) (package script snip : Str)
    (repl : List (Str × Str)) (hrepl : repl ≠ [])
    (hstore : store snip = none) :
    autoscript store binName scripts package script snip repl =
      .error (.UnknownAutoscript snip) := by
  have hsedn : autoscript_sed store snip repl = none :=
    (autoscript_sed_none_iff store snip repl).mpr hstore
  simp only [autoscript]
  by_cases hc : ((scripts (fragKey package script)).isSome &&
      (script == str "postrm" || script == str "prerm")) = true
  · rw [if_pos hc, if_pos (not_isEmpty_of_ne_nil hrepl), hsedn]
  · rw [if_neg hc, if_pos (not_isEmpty_of_ne_nil hrepl), hsedn]

theorem subst_user_found (fs : FileSystem) (dir : Str) (scripts : ScriptFragments)
    (package script : Str) (u : Option Str) (p : FsPath) (user : Str)
    (hp : pkgfile fs dir package package script u = some p)
    (hread : fs p = some user) :
    debhelper_script_subst fs dir scripts package script u =
      (if replaceAll marker ((scripts (fragKey package script)).getD []) user = user then
        (.error (.DebHelperReplaceFailed p), scripts)
      else
        (.ok (), sfInsert scripts script
          (replaceAll marker ((scripts (fragKey package script)).getD []) user))) := by
  simp only [debhelper_script_subst, read_file_to_string, hp, hread]

theorem subst_no_user_some (fs : FileSystem) (dir : Str) (scripts : ScriptFragments)
    (package script : Str) (u : Option Str) (gen : Str)
    (hp : pkgfile fs dir package package script u = none)
    (hgen : scripts (fragKey package script) = some gen) :
    debhelper_script_subst fs dir scripts package script u =
      (.ok (), sfInsert scripts script (str "#!/bin/sh\n" ++ str "set -e\n" ++ gen)) := by
  simp only [debhelper_script_subst, read_file_to_string, hp, hgen]

theorem subst_no_user_none (fs : FileSystem) (dir : Str) (scripts : ScriptFragments)
    (package script : Str) (u : Option Str)
    (hp : pkgfile fs dir package package script u = none)
    (hgen : scripts (fragKey package script) = none) :
    debhelper_script_subst fs dir scripts package script u = (.ok (), scripts) := by
  simp only [debhelper_script_subst, read_file_to_string, hp, hgen]

/-! Claim theorems. -/

/-- C2: `pkgfile` evaluates candidate paths in exactly the claimed order -
`dir/<package>.<unit>.<filename>` (when a unit name is given),
`dir/<unit>.<filename>` (unit name given and package is the main package),
`dir/<package>.<filename>`, `dir/<filename>` (main package only) -
returning the first candidate existing as a regular file, and `none` when
no candidate exists. -/
theorem pkgfile_candidate_order (fs : FileSystem)
    (dir main_package package filename : Str) (unit_name : Option Str) :
    pkgfile fs dir main_package package filename unit_name =
      (specCandidates dir main_package package filename unit_name).find?
        (fun p => is_path_file fs p) ∧
    (pkgfile fs dir main_package package filename unit_name = none ↔
      ∀ p ∈ specCandidates dir main_package package filename unit_name,
        is_path_file fs p = false) := by
  have h1 : pkgfile fs dir main_package package filename unit_name =
      (specCandidates dir main_package package filename unit_name).find?
        (fun p => is_path_file fs p) := by
    by_cases h : main_package = package
    · subst h
      simp [pkgfile, specCandidates]
    · have hb1 : (main_package == package) = false := by
        rw [beq_eq_false_iff_ne]
        exact h
      have hb2 : (package == main_package) = false := by
        rw [beq_eq_false_iff_ne]
        exact fun hh => h hh.symm
      simp [pkgfile, specCandidates, hb1, hb2]
  refine ⟨h1, ?_⟩
  rw [h1, List.find?_eq_none]
  constructor
  · intro hall p hp
    cases hv : is_path_file fs p with
    | false => rfl
    | true => exact absurd hv (hall p hp)
  · intro hall p hp
    rw [hall p hp]
    simp

/-- Witness for C2: the spec's own resolution scenario, where the most
specific candidate `mypkg.myunit.postinst` wins. -/
theorem pkgfile_candidate_order_witness :
    pkgfile
      (fun p =>
        if p = joinPath (str "/d") (str "postinst") ∨
           p = joinPath (str "/d") (str "myunit.postinst") ∨
           p = joinPath (str "/d") (str "mypkg.postinst") ∨
           p = joinPath (str "/d") (str "mypkg.myunit.postinst")
        then some [] else none)
      (str "/d") (str "mypkg") (str "mypkg") (str "postinst") (some (str "myunit")) =
      some (joinPath (str "/d") (str "mypkg.myunit.postinst")) :=
  ((pkgfile_candidate_order
      (fun p =>
        if p = joinPath (str "/d") (str "postinst") ∨
           p = joinPath (str "/d") (str "myunit.postinst") ∨
           p = joinPath (str "/d") (str "mypkg.postinst") ∨
           p = joinPath (str "/d") (str "mypkg.myunit.postinst")
        then some [] else none)
      (str "/d") (str "mypkg") (str "mypkg") (str "postinst")
      (some (str "myunit"))).1).trans (by decide)

/-- C9: `autoscript` fails - and never returns normally - in exactly the
two caller-misuse cases: an empty replacement map (sed mode) or an
unknown template name; this holds for every script kind and whether or
not a table entry exists, and the two failures carry the sed-mode and
unknown-autoscript errors respectively. -/
theorem autoscript_error_conditions (store : TemplateStore) (binName : Str)
    (scripts : ScriptFragments) (package script snip : Str)
    (repl : List (Str × Str)) :
    ((∃ e, autoscript store binName scripts package script snip repl = .error e) ↔
      (repl = [] ∨ store snip = none)) ∧
    (repl = [] → autoscript store binName scripts package script snip repl =
      .error .UnimplementedSedMode) ∧
    (repl ≠ [] → store snip = none →
      autoscript store binName scripts package script snip repl =
        .error (.UnknownAutoscript snip)) := by
  refine ⟨⟨?_, ?_⟩, ?_, ?_⟩
  · rintro ⟨e, he⟩
    by_contra hcon
    push_neg at hcon
    obtain ⟨hrepl, hstore⟩ := hcon
    obtain ⟨tmpl, htmpl⟩ := Option.ne_none_iff_exists'.mp hstore
    have hsed := autoscript_sed_of_store store snip tmpl repl htmpl
    by_cases hc : ((scripts (fragKey package script)).isSome = true ∧
        (script = str "postrm" ∨ script = str "prerm"))
    · rw [autoscript_prepend store binName scripts package script snip repl _
        hrepl hsed hc.1 hc.2] at he
      exact Except.noConfusion he
    · rw [autoscript_append store binName scripts package script snip repl _
        hrepl hsed hc] at he
      exact Except.noConfusion he
  · rintro (rfl | hstore)
    · exact ⟨_, autoscript_sed_mode store binName scripts package script snip⟩
    · by_cases hrepl : repl = []
      · subst hrepl
        exact ⟨_, autoscript_sed_mode store binName scripts package script snip⟩
      · exact ⟨_, autoscript_unknown store binName scripts package script snip repl
          hrepl hstore⟩
  · rintro rfl
    exact autoscript_sed_mode store binName scripts package script snip
  · intro hrepl hstore
    exact autoscript_unknown store binName scripts package script snip repl hrepl hstore

/-- Witness for C9: a non-empty map with an unknown template name yields
the unknown-autoscript error. -/
theorem autoscript_error_conditions_witness :
    autoscript (fun _ => none) (str "cargo-deb") (fun _ => none) (str "p")
      (str "postinst") (str "nope") [(str "U", str "x")] =
      .error (.UnknownAutoscript (str "nope")) :=
  (autoscript_error_conditions (fun _ => none) (str "cargo-deb") (fun _ => none)
    (str "p") (str "postinst") (str "nope") [(str "U", str "x")]).2.2
    (by decide) rfl

/-- C10: every successful `autoscript` call leaves the
`<package>.<script>.debhelper` entry strictly longer than before (an
absent entry counting as length zero) and leaves every other binding
unchanged: accumulation only grows an entry, never truncates it. -/
theorem autoscript_entry_growth (store : TemplateStore) (binName : Str)
    (scripts t : ScriptFragments) (package script snip : Str)
    (repl : List (Str × Str))
    (h : autoscript store binName scripts package script snip repl = .ok t) :
    (∃ newText, t (fragKey package script) = some newText ∧
      ((scripts (fragKey package script)).getD []).length < newText.length) ∧
    (∀ k, k ≠ fragKey package script → t k = scripts k) := by
  have hrepl : repl ≠ [] := by
    rintro rfl
    rw [autoscript_sed_mode] at h
    exact Except.noConfusion h
  have hstore : store snip ≠ none := by
    intro hn
    rw [autoscript_unknown store binName scripts package script snip repl hrepl hn] at h
    exact Except.noConfusion h
  obtain ⟨tmpl, htmpl⟩ := Option.ne_none_iff_exists'.mp hstore
  have hsed := autoscript_sed_of_store store snip tmpl repl htmpl
  have hblock : 0 < (banner_wrap binName (repl.foldl sedStep (normalizeNL tmpl))).length := by
    have hcl : 0 < (banner_close).length := by decide
    show 0 < ((banner_open binName ++ _) ++ banner_close).length
    rw [List.length_append]
    omega
  by_cases hc : ((scripts (fragKey package script)).isSome = true ∧
      (script = str "postrm" ∨ script = str "prerm"))
  · rw [autoscript_prepend store binName scripts package script snip repl _
      hrepl hsed hc.1 hc.2] at h
    obtain rfl : sfInsert scripts (fragKey package script)
        (banner_wrap binName (repl.foldl sedStep (normalizeNL tmpl)) ++
          (scripts (fragKey package script)).getD []) = t := by
      injection h
    refine ⟨⟨_, sfInsert_self scripts (fragKey package script) _, ?_⟩,
      fun k hk => sfInsert_other scripts (fragKey package script) _ k hk⟩
    rw [List.length_append]
    omega
  · rw [autoscript_append store binName scripts package script snip repl _
      hrepl hsed hc] at h
    obtain rfl : sfInsert scripts (fragKey package script)
        ((scripts (fragKey package script)).getD [] ++
          banner_wrap binName (repl.foldl sedStep (normalizeNL tmpl))) = t := by
      injection h
    refine ⟨⟨_, sfInsert_self scripts (fragKey package script) _, ?_⟩,
      fun k hk => sfInsert_other scripts (fragKey package script) _ k hk⟩
    rw [List.length_append]
    omega

/-- Witness for C10: one successful accumulation into an empty table grows
the entry from length 0 and leaves an unrelated key untouched. -/
theorem autoscript_entry_growth_witness :
    (∃ newText,
      sfInsert (fun _ => none) (fragKey (str "p") (str "postinst"))
        (banner_wrap (str "b") (str "x\n")) (fragKey (str "p") (str "postinst")) =
        some newText ∧
      (((fun _ => none : ScriptFragments) (fragKey (str "p") (str "postinst"))).getD
        []).length < newText.length) ∧
    (∀ k, k ≠ fragKey (str "p") (str "postinst") →
      sfInsert (fun _ => none) (fragKey (str "p") (str "postinst"))
        (banner_wrap (str "b") (str "x\n")) k = (fun _ => none : ScriptFragments) k) :=
  autoscript_entry_growth (fun n => if n = str "t" then some (str "x\n") else none)
    (str "b") (fun _ => none)
    (sfInsert (fun _ => none) (fragKey (str "p") (str "postinst"))
      (banner_wrap (str "b") (str "x\n")))
    (str "p") (str "postinst") (str "t") [(str "K", str "v")] rfl

/-- C1: with a non-empty replacement map (and a template that renders),
`autoscript` prepends the wrapped block before the existing entry exactly
when the kind is `postrm`/`prerm` and an entry already exists, and
appends it after any existing text otherwise; consequently two successive
accumulations with values rendering to `A` then `B` yield block(B) then
block(A) for `postrm`/`prerm` but block(A) then block(B) for
`preinst`/`postinst`. -/
theorem autoscript_merge_order (store : TemplateStore) (binName : Str)
    (scripts : ScriptFragments) (package script snip : Str)
    (repl : List (Str × Str)) (rendered : Str)
    (hrepl : repl ≠ [])
    (hsed : autoscript_sed store snip repl = some rendered) :
    (((scripts (fragKey package script)).isSome = true ∧
        (script = str "postrm" ∨ script = str "prerm")) →
      autoscript store binName scripts package script snip repl =
        .ok (sfInsert scripts (fragKey package script)
          (banner_wrap binName rendered ++ (scripts (fragKey package script)).getD []))) ∧
    ((¬((scripts (fragKey package script)).isSome = true ∧
        (script = str "postrm" ∨ script = str "prerm"))) →
      autoscript store binName scripts package script snip repl =
        .ok (sfInsert scripts (fragKey package script)
          ((scripts (fragKey package script)).getD [] ++ banner_wrap binName rendered))) ∧
    (∀ (repl2 : List (Str × Str)) (rendered2 : Str), repl2 ≠ [] →
      autoscript_sed store snip repl2 = some rendered2 →
      scripts (fragKey package script) = none →
      ((script = str "postrm" ∨ script = str "prerm") →
        ∃ t1 t2, autoscript store binName scripts package script snip repl = .ok t1 ∧
          autoscript store binName t1 package script snip repl2 = .ok t2 ∧
          t2 (fragKey package script) =
            some (banner_wrap binName rendered2 ++ banner_wrap binName rendered)) ∧
      ((script = str "preinst" ∨ script = str "postinst") →
        ∃ t1 t2, autoscript store binName scripts package script snip repl = .ok t1 ∧
          autoscript store binName t1 package script snip repl2 = .ok t2 ∧
          t2 (fragKey package script) =
            some (banner_wrap binName rendered ++ banner_wrap binName rendered2))) := by
  refine ⟨?_, ?_, ?_⟩
  · intro hc
    exact autoscript_prepend store binName scripts package script snip repl rendered
      hrepl hsed hc.1 hc.2
  · intro hc
    exact autoscript_append store binName scripts package script snip repl rendered
      hrepl hsed hc
  · intro repl2 rendered2 hrepl2 hsed2 hnone
    have hcond1 : ¬((scripts (fragKey package script)).isSome = true ∧
        (script = str "postrm" ∨ script = str "prerm")) := by
      rintro ⟨hs, -⟩
      rw [hnone] at hs
      exact Bool.noConfusion hs
    have h1 := autoscript_append store binName scripts package script snip repl rendered
      hrepl hsed hcond1
    have ht1 : (sfInsert scripts (fragKey package script)
        ((scripts (fragKey package script)).getD [] ++ banner_wrap binName rendered))
        (fragKey package script) =
        some ((scripts (fragKey package script)).getD [] ++ banner_wrap binName rendered) :=
      sfInsert_self scripts (fragKey package script) _
    constructor
    · intro hkind
      have hsome1 : ((sfInsert scripts (fragKey package script)
          ((scripts (fragKey package script)).getD [] ++ banner_wrap binName rendered))
          (fragKey package script)).isSome = true := by
        rw [ht1]
        rfl
      have h2 := autoscript_prepend store binName _ package script snip repl2 rendered2
        hrepl2 hsed2 hsome1 hkind
      refine ⟨_, _, h1, h2, ?_⟩
      rw [sfInsert_self, ht1, hnone]
      simp
    · intro hkind
      have hkind' : ¬(script = str "postrm" ∨ script = str "prerm") := by
        rintro (rfl | rfl) <;> rcases hkind with hk | hk <;>
          exact absurd hk (by decide)
      have hcond2 : ¬(((sfInsert scripts (fragKey package script)
          ((scripts (fragKey package script)).getD [] ++ banner_wrap binName rendered))
          (fragKey package script)).isSome = true ∧
          (script = str "postrm" ∨ script = str "prerm")) := by
        rintro ⟨-, hk⟩
        exact hkind' hk
      have h2 := autoscript_append store binName _ package script snip repl2 rendered2
        hrepl2 hsed2 hcond2
      refine ⟨_, _, h1, h2, ?_⟩
      rw [sfInsert_self, ht1, hnone]
      simp

/-- Witness for C1: two `postrm` accumulations of the same template with
unit values rendering to blocks A then B leave the entry as
block(B) ++ block(A). -/
theorem autoscript_merge_order_witness :
    ∃ t1 t2,
      autoscript (fun n => if n = str "t" then some (str "x #U# y") else none) (str "b")
        (fun _ => none) (str "p") (str "postrm") (str "t") [(str "U", str "A")] = .ok t1 ∧
      autoscript (fun n => if n = str "t" then some (str "x #U# y") else none) (str "b")
        t1 (str "p") (str "postrm") (str "t") [(str "U", str "B")] = .ok t2 ∧
      t2 (fragKey (str "p") (str "postrm")) =
        some (banner_wrap (str "b") (str "x B y\n") ++ banner_wrap (str "b") (str "x A y\n")) :=
  ((autoscript_merge_order (fun n => if n = str "t" then some (str "x #U# y") else none)
      (str "b") (fun _ => none) (str "p") (str "postrm") (str "t")
      [(str "U", str "A")] (str "x A y\n") (by decide) (by decide)).2.2
    [(str "U", str "B")] (str "x B y\n") (by decide) (by decide) rfl).1 (Or.inl rfl)

/-! Shape lemmas for the composer's table updates. -/

theorem subst_read_err (fs : FileSystem) (dir : Str) (scripts : ScriptFragments)
    (package script : Str) (u : Option Str) (p : FsPath)
    (hp : pkgfile fs dir package package script u = some p)
    (hr : fs p = none) :
    debhelper_script_subst fs dir scripts package script u =
      (.error (.IoRead p), scripts) := by
  simp only [debhelper_script_subst, read_file_to_string, hp, hr]

theorem subst_2_eq (fs : FileSystem) (dir : Str) (scripts : ScriptFragments)
    (package script : Str) (u : Option Str) :
    (debhelper_script_subst fs dir scripts package script u).2 = scripts ∨
    ∃ v, (debhelper_script_subst fs dir scripts package script u).2 =
        sfInsert scripts script v ∧
      (debhelper_script_subst fs dir scripts package script u).1 = .ok () := by
  cases hpf : pkgfile fs dir package package script u with
  | none =>
    cases hg : scripts (fragKey package script) with
    | some gen =>
      rw [subst_no_user_some fs dir scripts package script u gen hpf hg]
      exact Or.inr ⟨_, rfl, rfl⟩
    | none =>
      rw [subst_no_user_none fs dir scripts package script u hpf hg]
      exact Or.inl rfl
  | some p =>
    cases hr : fs p with
    | none =>
      rw [subst_read_err fs dir scripts package script u p hpf hr]
      exact Or.inl rfl
    | some user =>
      rw [subst_user_found fs dir scripts package script u p user hpf hr]
      by_cases hc : replaceAll marker ((scripts (fragKey package script)).getD []) user
          = user
      · rw [if_pos hc]
        exact Or.inl rfl
      · rw [if_neg hc]
        exact Or.inr ⟨_, rfl, rfl⟩

theorem subst_frame_ne (fs : FileSystem) (dir : Str) (scripts : ScriptFragments)
    (package script : Str) (u : Option Str) (k : Str) (hk : k ≠ script) :
    (debhelper_script_subst fs dir scripts package script u).2 k = scripts k := by
  rcases subst_2_eq fs dir scripts package script u with h2 | ⟨v, h2, -⟩
  · rw [h2]
  · rw [h2]
    exact sfInsert_other scripts script v k hk

theorem subst_isSome (fs : FileSystem) (dir : Str) (scripts : ScriptFragments)
    (package script : Str) (u : Option Str) (k : Str)
    (hk : (scripts k).isSome = true) :
    ((debhelper_script_subst fs dir scripts package script u).2 k).isSome = true := by
  rcases subst_2_eq fs dir scripts package script u with h2 | ⟨v, h2, -⟩
  · rw [h2]
    exact hk
  · rw [h2]
    by_cases hks : k = script
    · subst hks
      rw [sfInsert_self]
      rfl
    · rw [sfInsert_other scripts script v k hks]
      exact hk

theorem subst_err_unchanged (fs : FileSystem) (dir : Str) (scripts : ScriptFragments)
    (package script : Str) (u : Option Str) (e : CargoDebError)
    (he : (debhelper_script_subst fs dir scripts package script u).1 = .error e) :
    (debhelper_script_subst fs dir scripts package script u).2 = scripts := by
  rcases subst_2_eq fs dir scripts package script u with h2 | ⟨v, -, h1⟩
  · exact h2
  · rw [h1] at he
    exact Except.noConfusion he

theorem applyGo_frame (fs : FileSystem) (dir : Str) (package : Str) (u : Option Str) :
    ∀ (kinds : List Str) (scripts : ScriptFragments) (k : Str), k ∉ kinds →
      (applyGo fs dir package u kinds scripts).2 k = scripts k := by
  intro kinds
  induction kinds with
  | nil =>
    intro scripts k _
    rfl
  | cons s rest ih =>
    intro scripts k hk
    have hks : k ≠ s := fun h => hk (h ▸ List.mem_cons_self s rest)
    have hkrest : k ∉ rest := fun h => hk (List.mem_cons_of_mem s h)
    have hfr : (debhelper_script_subst fs dir scripts package s u).2 k = scripts k :=
      subst_frame_ne fs dir scripts package s u k hks
    simp only [applyGo]
    cases hsub : debhelper_script_subst fs dir scripts package s u with
    | mk res scripts' =>
      rw [hsub] at hfr
      cases res with
      | ok r =>
        rw [ih scripts' k hkrest]
        exact hfr
      | error e => exact hfr

theorem applyGo_isSome (fs : FileSystem) (dir : Str) (package : Str) (u : Option Str) :
    ∀ (kinds : List Str) (scripts : ScriptFragments) (k : Str),
      (scripts k).isSome = true →
      ((applyGo fs dir package u kinds scripts).2 k).isSome = true := by
  intro kinds
  induction kinds with
  | nil =>
    intro scripts k hk
    exact hk
  | cons s rest ih =>
    intro scripts k hk
    have hpres : ((debhelper_script_subst fs dir scripts package s u).2 k).isSome = true :=
      subst_isSome fs dir scripts package s u k hk
    simp only [applyGo]
    cases hsub : debhelper_script_subst fs dir scripts package s u with
    | mk res scripts' =>
      rw [hsub] at hpres
      cases res with
      | ok r => exact ih scripts' k hpres
      | error e => exact hpres

/-- Counterexample to C4 as stated: composing a kind with only a fragment
entry adds a new binding under the final script name (here `postinst`),
so "no bindings are added or removed" fails on the code. -/
theorem compose_adds_binding_cex :
    ((fun k => if k = fragKey (str "mypkg") (str "postinst")
        then some (str "some content") else none : ScriptFragments)
      (str "postinst") = none) ∧
    (((debhelper_script_subst (fun _ => none) (str "")
        (fun k => if k = fragKey (str "mypkg") (str "postinst")
          then some (str "some content") else none)
        (str "mypkg") (str "postinst") none).2 (str "postinst")).isSome = true) :=
  ⟨by decide, by decide⟩

/-- C4 amended: the composer only ever inserts under final script names -
`compose_one` changes at most the binding of its own script kind, never
removes a binding, and leaves the table entirely unchanged when it fails;
`compose_all` changes at most the four final script names and never
removes a binding. -/
theorem compose_table_frame (fs : FileSystem) (dir : Str)
    (scripts : ScriptFragments) (package script : Str) (u : Option Str) :
    (∀ k, k ≠ script →
      (debhelper_script_subst fs dir scripts package script u).2 k = scripts k) ∧
    (∀ k, (scripts k).isSome = true →
      ((debhelper_script_subst fs dir scripts package script u).2 k).isSome = true) ∧
    (∀ e, (debhelper_script_subst fs dir scripts package script u).1 = .error e →
      ∀ k, (debhelper_script_subst fs dir scripts package script u).2 k = scripts k) ∧
    (∀ k, k ∉ [str "postinst", str "preinst", str "prerm", str "postrm"] →
      (apply fs dir scripts package u).2 k = scripts k) ∧
    (∀ k, (scripts k).isSome = true →
      ((apply fs dir scripts package u).2 k).isSome = true) := by
  refine ⟨fun k hk => subst_frame_ne fs dir scripts package script u k hk,
    fun k hk => subst_isSome fs dir scripts package script u k hk,
    fun e he k => ?_,
    fun k hk => applyGo_frame fs dir package u _ scripts k hk,
    fun k hk => applyGo_isSome fs dir package u _ scripts k hk⟩
  rw [subst_err_unchanged fs dir scripts package script u e he]

/-- Witness for C4 (amended): with only a fragment entry in the table,
composing all four kinds leaves an unrelated key untouched. -/
theorem compose_table_frame_witness :
    (apply (fun _ => none) (str "")
      (fun k => if k = fragKey (str "mypkg") (str "postinst")
        then some (str "some content") else none)
      (str "mypkg") none).2 (str "other") =
    (fun k => if k = fragKey (str "mypkg") (str "postinst")
      then some (str "some content") else none : ScriptFragments) (str "other") :=
  (compose_table_frame (fun _ => none) (str "")
    (fun k => if k = fragKey (str "mypkg") (str "postinst")
      then some (str "some content") else none)
    (str "mypkg") (str "postinst") none).2.2.2.1 (str "other") (by decide)

/-- Counterexample to C3 as stated: when the fragment text is the literal
marker token itself, the replacement leaves the user text unchanged and
composition fails even though the marker IS present, refuting "fails
... exactly when the marker token was never present in the user script". -/
theorem compose_error_despite_marker_cex :
    occurs marker (str "a #DEBHELPER# b") = true ∧
    (debhelper_script_subst
        (fun p => if p = joinPath (str "/d") (str "postinst")
          then some (str "a #DEBHELPER# b") else none)
        (str "/d")
        (fun k => if k = fragKey (str "mypkg") (str "postinst")
          then some (str "#DEBHELPER#") else none)
        (str "mypkg") (str "postinst") none).1 =
      .error (.DebHelperReplaceFailed (joinPath (str "/d") (str "postinst"))) :=
  ⟨by decide, by rfl⟩

/-- C3 amended: composition over a found user script fails with the
marker-missing error exactly when replacing the marker by the fragment
text (empty when no entry exists) leaves the text unchanged; this is
equivalent to "the marker was never present" whenever the fragment text
is not itself the literal marker token, and in particular a user file
lacking the marker is a hard error even when fragments are empty. -/
theorem compose_marker_missing_error_iff (fs : FileSystem) (dir : Str)
    (scripts : ScriptFragments) (package script : Str) (u : Option Str)
    (p : FsPath) (user : Str)
    (hp : pkgfile fs dir package package script u = some p)
    (hread : fs p = some user) :
    ((debhelper_script_subst fs dir scripts package script u).1 =
        .error (.DebHelperReplaceFailed p) ↔
      replaceAll marker ((scripts (fragKey package script)).getD []) user = user) ∧
    ((scripts (fragKey package script)).getD [] ≠ marker →
      ((debhelper_script_subst fs dir scripts package script u).1 =
          .error (.DebHelperReplaceFailed p) ↔ occurs marker user = false)) ∧
    (occurs marker user = false →
      (debhelper_script_subst fs dir scripts package script u).1 =
        .error (.DebHelperReplaceFailed p)) := by
  have hmar : marker ≠ [] := by decide
  have hsubst := subst_user_found fs dir scripts package script u p user hp hread
  by_cases hcond : replaceAll marker ((scripts (fragKey package script)).getD []) user
      = user
  · rw [hsubst, if_pos hcond]
    refine ⟨⟨fun _ => hcond, fun _ => rfl⟩, ?_, fun _ => rfl⟩
    intro hne
    refine ⟨fun _ => ?_, fun _ => rfl⟩
    rcases (replaceAll_eq_self_iff marker _ user hmar).mp hcond with hocc | hrep
    · exact hocc
    · exact absurd hrep hne
  · rw [hsubst, if_neg hcond]
    refine ⟨⟨fun habs => ?_, fun hr => absurd hr hcond⟩, ?_, ?_⟩
    · exact Except.noConfusion habs
    · intro _
      refine ⟨fun habs => Except.noConfusion habs, fun hoccf => ?_⟩
      exact absurd (replaceAll_of_not_occurs marker _ user hmar hoccf) hcond
    · intro hoccf
      exact absurd (replaceAll_of_not_occurs marker _ user hmar hoccf) hcond

/-- Witness for C3 (amended): a user file lacking the marker is a hard
error even with an empty fragment table. -/
theorem compose_marker_missing_error_iff_witness :
    (debhelper_script_subst
        (fun p => if p = joinPath (str "/d") (str "postinst")
          then some (str "no token here") else none)
        (str "/d") (fun _ => none) (str "mypkg") (str "postinst") none).1 =
      .error (.DebHelperReplaceFailed (joinPath (str "/d") (str "postinst"))) :=
  (compose_marker_missing_error_iff
      (fun p => if p = joinPath (str "/d") (str "postinst")
        then some (str "no token here") else none)
      (str "/d") (fun _ => none) (str "mypkg") (str "postinst") none
      (joinPath (str "/d") (str "postinst")) (str "no token here")
      (by decide) (by decide)).2.2 (by decide)

/-- Counterexample to C5 as stated: for the non-empty fragment text
consisting of the literal marker token itself, composing a user script
that contains the marker produces no output at all - it fails and stores
nothing under the final script name - rather than an output with the
marker occurrences replaced. -/
theorem compose_replace_no_output_cex :
    (str "#DEBHELPER#" : Str) ≠ [] ∧
    occurs marker (str "x #DEBHELPER# y") = true ∧
    (debhelper_script_subst
        (fun p => if p = joinPath (str "/d") (str "postinst")
          then some (str "x #DEBHELPER# y") else none)
        (str "/d")
        (fun k => if k = fragKey (str "pkgx") (str "postinst")
          then some (str "#DEBHELPER#") else none)
        (str "pkgx") (str "postinst") none).1 =
      .error (.DebHelperReplaceFailed (joinPath (str "/d") (str "postinst"))) ∧
    (debhelper_script_subst
        (fun p => if p = joinPath (str "/d") (str "postinst")
          then some (str "x #DEBHELPER# y") else none)
        (str "/d")
        (fun k => if k = fragKey (str "pkgx") (str "postinst")
          then some (str "#DEBHELPER#") else none)
        (str "pkgx") (str "postinst") none).2 (str "postinst") = none :=
  ⟨by decide, by decide, by rfl, by rfl⟩

/-- C5 amended: for every user script containing the marker and every
non-empty fragment text other than the literal marker token itself,
composition succeeds and stores the user text with exactly its leftmost
non-overlapping marker occurrences replaced by the fragment text: the
output is the marker-free segments of the user text, in order and
byte-for-byte, interleaved with the fragment text. -/
theorem compose_replaces_marker (fs : FileSystem) (dir : Str)
    (scripts : ScriptFragments) (package script : Str) (u : Option Str)
    (p : FsPath) (user gen : Str)
    (hp : pkgfile fs dir package package script u = some p)
    (hread : fs p = some user)
    (hgen : scripts (fragKey package script) = some gen)
    (hne : gen ≠ [])
    (hnm : gen ≠ marker)
    (hocc : occurs marker user = true) :
    2 ≤ (splitOn marker user).length ∧
    joinSep marker (splitOn marker user) = user ∧
    (∀ part ∈ splitOn marker user, occurs marker part = false) ∧
    (debhelper_script_subst fs dir scripts package script u).1 = .ok () ∧
    (debhelper_script_subst fs dir scripts package script u).2 script =
      some (joinSep gen (splitOn marker user)) := by
  have hmar : marker ≠ [] := by decide
  have hsubst := subst_user_found fs dir scripts package script u p user hp hread
  have hgd : (scripts (fragKey package script)).getD [] = gen := by
    rw [hgen]
    rfl
  rw [hgd] at hsubst
  have hcond : ¬(replaceAll marker gen user = user) := by
    rw [replaceAll_eq_self_iff marker gen user hmar]
    rintro (hf | hrep)
    · rw [hf] at hocc
      exact Bool.noConfusion hocc
    · exact hnm hrep
  rw [hsubst, if_neg hcond]
  refine ⟨(occurs_iff_splitOn marker hmar user).mp hocc,
    joinSep_splitOn marker user, splitOn_no_occurs marker hmar user, rfl, ?_⟩
  show sfInsert scripts script (replaceAll marker gen user) script = _
  rw [sfInsert_self, replaceAll_eq_joinSep]

/-- Witness for C5 (amended): splicing the fragment `XY` into
`a #DEBHELPER# b` succeeds and stores `a XY b` with the surrounding
bytes preserved. -/
theorem compose_replaces_marker_witness :
    2 ≤ (splitOn marker (str "a #DEBHELPER# b")).length ∧
    joinSep marker (splitOn marker (str "a #DEBHELPER# b")) = str "a #DEBHELPER# b" ∧
    (∀ part ∈ splitOn marker (str "a #DEBHELPER# b"), occurs marker part = false) ∧
    (debhelper_script_subst
        (fun p => if p = joinPath (str "/d") (str "postinst")
          then some (str "a #DEBHELPER# b") else none)
        (str "/d")
        (fun k => if k = fragKey (str "mypkg") (str "postinst")
          then some (str "XY") else none)
        (str "mypkg") (str "postinst") none).1 = .ok () ∧
    (debhelper_script_subst
        (fun p => if p = joinPath (str "/d") (str "postinst")
          then some (str "a #DEBHELPER# b") else none)
        (str "/d")
        (fun k => if k = fragKey (str "mypkg") (str "postinst")
          then some (str "XY") else none)
        (str "mypkg") (str "postinst") none).2 (str "postinst") =
      some (joinSep (str "XY") (splitOn marker (str "a #DEBHELPER# b"))) :=
  compose_replaces_marker
    (fun p => if p = joinPath (str "/d") (str "postinst")
      then some (str "a #DEBHELPER# b") else none)
    (str "/d")
    (fun k => if k = fragKey (str "mypkg") (str "postinst")
      then some (str "XY") else none)
    (str "mypkg") (str "postinst") none
    (joinPath (str "/d") (str "postinst")) (str "a #DEBHELPER# b") (str "XY")
    (by decide) (by decide) (by decide) (by decide) (by decide) (by decide)

/-- C6: when path resolution finds no user script, composing a kind with
a fragment entry succeeds and stores shebang line + fail-fast directive +
fragment text verbatim under the final script name; with no fragment
entry it succeeds and produces no output entry (the table is pointwise
unchanged). -/
theorem compose_no_user_script (fs : FileSystem) (dir : Str)
    (scripts : ScriptFragments) (package script : Str) (u : Option Str)
    (hp : pkgfile fs dir package package script u = none) :
    (∀ gen, scripts (fragKey package script) = some gen →
      (debhelper_script_subst fs dir scripts package script u).1 = .ok () ∧
      (debhelper_script_subst fs dir scripts package script u).2 script =
        some (str "#!/bin/sh\n" ++ str "set -e\n" ++ gen) ∧
      ∀ k, k ≠ script →
        (debhelper_script_subst fs dir scripts package script u).2 k = scripts k) ∧
    (scripts (fragKey package script) = none →
      (debhelper_script_subst fs dir scripts package script u).1 = .ok () ∧
      ∀ k, (debhelper_script_subst fs dir scripts package script u).2 k = scripts k) := by
  constructor
  · intro gen hgen
    rw [subst_no_user_some fs dir scripts package script u gen hp hgen]
    exact ⟨rfl, sfInsert_self scripts script _,
      fun k hk => sfInsert_other scripts script _ k hk⟩
  · intro hgen
    rw [subst_no_user_none fs dir scripts package script u hp hgen]
    exact ⟨rfl, fun k => rfl⟩

/-- Witness for C6: with no user file, a fragment entry is turned into a
standalone script with the shebang and fail-fast lines prepended. -/
theorem compose_no_user_script_witness :
    (debhelper_script_subst (fun _ => none) (str "/d")
        (fun k => if k = fragKey (str "mypkg") (str "postinst")
          then some (str "frag text\n") else none)
        (str "mypkg") (str "postinst") none).1 = .ok () ∧
    (debhelper_script_subst (fun _ => none) (str "/d")
        (fun k => if k = fragKey (str "mypkg") (str "postinst")
          then some (str "frag text\n") else none)
        (str "mypkg") (str "postinst") none).2 (str "postinst") =
      some (str "#!/bin/sh\n" ++ str "set -e\n" ++ str "frag text\n") ∧
    (∀ k, k ≠ str "postinst" →
      (debhelper_script_subst (fun _ => none) (str "/d")
        (fun k => if k = fragKey (str "mypkg") (str "postinst")
          then some (str "frag text\n") else none)
        (str "mypkg") (str "postinst") none).2 k =
      (fun k => if k = fragKey (str "mypkg") (str "postinst")
        then some (str "frag text\n") else none : ScriptFragments) k) :=
  (compose_no_user_script (fun _ => none) (str "/d")
    (fun k => if k = fragKey (str "mypkg") (str "postinst")
      then some (str "frag text\n") else none)
    (str "mypkg") (str "postinst") none (by decide)).1 (str "frag text\n") (by decide)

/-- C7: one accumulation normalizes the template text to guarantee a
trailing newline, rendering preserves that trailing newline (every
replacement token ends in `#`), and the banner-wrapped block merged into
the table has exactly two more lines - the banner opening and closing
comment lines - than the rendered template itself. -/
theorem autoscript_block_line_count (store : TemplateStore) (binName : Str)
    (snip tmpl : Str) (repl : List (Str × Str))
    (hstore : store snip = some tmpl)
    (hbin : '\n' ∉ binName) :
    (normalizeNL tmpl).getLast? = some '\n' ∧
    ∃ rendered, autoscript_sed store snip repl = some rendered ∧
      rendered.getLast? = some '\n' ∧
      lineCount (banner_wrap binName rendered) = lineCount rendered + 2 := by
  refine ⟨normalizeNL_getLast tmpl,
    _, autoscript_sed_of_store store snip tmpl repl hstore, ?_, ?_⟩
  · exact foldl_sedStep_getLast repl _ (normalizeNL_getLast tmpl)
  · exact lineCount_banner_wrap binName _ hbin
      (foldl_sedStep_getLast repl _ (normalizeNL_getLast tmpl))

/-- Witness for C7: a template without a trailing newline is normalized,
rendered, and wrapped into a block with exactly two extra lines. -/
theorem autoscript_block_line_count_witness :
    (normalizeNL (str "echo #U#")).getLast? = some '\n' ∧
    ∃ rendered,
      autoscript_sed (fun n => if n = str "t" then some (str "echo #U#") else none)
        (str "t") [(str "U", str "W")] = some rendered ∧
      rendered.getLast? = some '\n' ∧
      lineCount (banner_wrap (str "cargo-deb") rendered) = lineCount rendered + 2 :=
  autoscript_block_line_count
    (fun n => if n = str "t" then some (str "echo #U#") else none)
    (str "cargo-deb") (str "t") (str "echo #U#") [(str "U", str "W")]
    (by decide) (by decide)

/-- C8: rendering replaces, pair by pair in the map's iteration order,
every leftmost non-overlapping occurrence of the literal token `#key#`
by the value - for a single pair the result is exactly the token-free
segments of the normalized template interleaved with the value - and
whenever the per-pair replacement steps pairwise commute (the formal
content of "no two replacement patterns overlap"), the rendered result
is the same for any iteration order. -/
theorem autoscript_sed_order_independence (store : TemplateStore)
    (snip tmpl : Str) (k v : Str) (repl1 repl2 : List (Str × Str))
    (hstore : store snip = some tmpl)
    (hperm : repl1.Perm repl2)
    (hcomm : ∀ p ∈ repl1, ∀ q ∈ repl1, ∀ s : Str,
      sedStep (sedStep s p) q = sedStep (sedStep s q) p) :
    autoscript_sed store snip repl1 = autoscript_sed store snip repl2 ∧
    autoscript_sed store snip [(k, v)] =
      some (joinSep v (splitOn (tokenOf k) (normalizeNL tmpl))) ∧
    joinSep (tokenOf k) (splitOn (tokenOf k) (normalizeNL tmpl)) = normalizeNL tmpl ∧
    (∀ part ∈ splitOn (tokenOf k) (normalizeNL tmpl),
      occurs (tokenOf k) part = false) := by
  refine ⟨?_, ?_, joinSep_splitOn _ _, splitOn_no_occurs _ (tokenOf_ne_nil k) _⟩
  · rw [autoscript_sed_of_store store snip tmpl repl1 hstore,
      autoscript_sed_of_store store snip tmpl repl2 hstore]
    exact congrArg some (hperm.foldl_eq' hcomm _)
  · rw [autoscript_sed_of_store store snip tmpl [(k, v)] hstore]
    refine congrArg some ?_
    show sedStep (normalizeNL tmpl) (k, v) = _
    show replaceAll (tokenOf k) v (normalizeNL tmpl) = _
    exact replaceAll_eq_joinSep _ _ _

/-- Witness for C8: a commuting replacement list rendered in two orders
gives the same result, and the single-pair rendering replaces the token
occurrences of `#U#`. -/
theorem autoscript_sed_order_independence_witness :
    autoscript_sed (fun n => if n = str "t" then some (str "x #U# y") else none)
        (str "t") [(str "U", str "A")] =
      autoscript_sed (fun n => if n = str "t" then some (str "x #U# y") else none)
        (str "t") [(str "U", str "A")] ∧
    autoscript_sed (fun n => if n = str "t" then some (str "x #U# y") else none)
        (str "t") [(str "U", str "A")] =
      some (joinSep (str "A") (splitOn (tokenOf (str "U"))
        (normalizeNL (str "x #U# y")))) ∧
    joinSep (tokenOf (str "U")) (splitOn (tokenOf (str "U"))
      (normalizeNL (str "x #U# y"))) = normalizeNL (str "x #U# y") ∧
    (∀ part ∈ splitOn (tokenOf (str "U")) (normalizeNL (str "x #U# y")),
      occurs (tokenOf (str "U")) part = false) :=
  autoscript_sed_order_independence
    (fun n => if n = str "t" then some (str "x #U# y") else none)
    (str "t") (str "x #U# y") (str "U") (str "A")
    [(str "U", str "A")] [(str "U", str "A")]
    (by decide) (List.Perm.refl _)
    (fun p hp q hq s => by
      have hp' : p = (str "U", str "A") := by
        rcases List.mem_cons.mp hp with h | h
        · exact h
        · exact absurd h (List.not_mem_nil p)
      have hq' : q = (str "U", str "A") := by
        rcases List.mem_cons.mp hq with h | h
        · exact h
        · exact absurd h (List.not_mem_nil q)
      rw [hp', hq'])
